import Mathlib

/-
Verification development for the SparrowDB storage engine core
(package db: db.go and the compaction file).

The engine state is embedded shallowly: the Go structs Database and
dataHolder become Lean structures, the mutable on-disk state becomes an
explicit Disk value threaded through the operations, and fallible disk
operations take explicit outcome flags that say whether the underlying
I/O call succeeds.  Components of the repository that are not part of
the two embedded files (commitlog, cache, index summary, bloom filter,
record serialization, Hash32) are modelled from the specification; each
such definition carries a doc comment saying so.
-/

namespace SparrowDB

/-- Status flag of a record / index entry (model.DataDefinitionActive /
model.DataDefinitionRemoved). -/
inductive DataStatus where
  | active
  | removed
deriving DecidableEq

/-- Modelled from the spec: model.DataDefinition is not under src/.
A record: key string, status, payload bytes, and the derived frame size
in bytes (spec section 3).  The frame serialization round-trips exactly
(spec section 4.1), so a frame is represented by the record itself. -/
structure DataDefinition where
  key : String
  status : DataStatus
  payload : List Nat
  size : Nat
deriving DecidableEq

/-- Modelled from the spec: util.Hash32 is not under src/.  A 32-bit
non-cryptographic hash of the key string (spec section 3, KeyHash);
a simple polynomial hash reduced mod 2^32. -/
def Hash32 (s : String) : Nat :=
  s.data.foldl (fun h c => (h * 31 + c.toNat) % 4294967296) 7

/-- Modelled from the spec: index.Entry is not under src/.  IndexEntry:
key_hash, status and the offset of the record frame in its file
(spec section 3). -/
structure Entry where
  Key : Nat
  Status : DataStatus
  Offset : Nat
deriving DecidableEq

/-- Modelled from the spec: index.Summary is not under src/.  The summary
is a mapping from key_hash to Entry; Add replaces any prior entry for the
same key_hash (last-write-wins, spec section 4.2).  Represented as a list
of entries with pairwise distinct keys. -/
def summaryAdd (s : List Entry) (e : Entry) : List Entry :=
  (s.filter (fun x => x.Key ≠ e.Key)) ++ [e]

/-- Modelled from the spec: Summary.LookUp(key_hash) (spec section 4.2). -/
def summaryLookUp (s : List Entry) (h : Nat) : Option Entry :=
  s.find? (fun e => e.Key = h)

/-- Modelled from the spec: util.BloomFilter is not under src/.  Contains
must return true for every added string; the model keeps the added
strings themselves (an exact filter is one admissible bloom filter;
false positives are permitted by the contract, never required).
The Go zero value of the struct is the filter with nothing added. -/
structure BloomFilter where
  elems : List String
deriving DecidableEq

/-- Modelled from the spec: BloomFilter.Contains (spec section 4.3). -/
def BloomFilter.Contains (bf : BloomFilter) (s : String) : Bool :=
  bf.elems.contains s

/-- Modelled from the spec: BloomFilter.Add (spec section 4.3). -/
def BloomFilter.Add (bf : BloomFilter) (s : String) : BloomFilter :=
  ⟨s :: bf.elems⟩

/-- Modelled from the spec: util.NewBloomFilter; also the Go zero value
of util.BloomFilter (expected count and false-positive rate do not
affect the membership contract and are not modelled). -/
def NewBloomFilter : BloomFilter := ⟨[]⟩

/-- Modelled from the spec: cache.Cache is not under src/.  A mapping
from key_hash to serialized record bytes (spec section 4.4); modelled
as an association list.  The LRU capacity bound is not modelled: every
execution considered below stays under capacity, and the spec leaves
eviction timing unspecified. -/
def cachePut (c : List (Nat × DataDefinition)) (k : Nat) (v : DataDefinition) :
    List (Nat × DataDefinition) :=
  (k, v) :: c.filter (fun p => p.1 ≠ k)

/-- Modelled from the spec: Cache.Get by key_hash (spec section 4.4). -/
def cacheGet (c : List (Nat × DataDefinition)) (k : Nat) : Option DataDefinition :=
  (c.find? (fun p => p.1 = k)).map (fun p => p.2)

/-- Modelled from the spec: the Commitlog type is not under src/.
An append-only frame store (offset to frame), its in-memory index
summary, and the current on-disk byte size (spec section 4.5). -/
structure Commitlog where
  frames : List (Nat × DataDefinition)
  summary : List Entry
  size : Nat
deriving DecidableEq

/-- Modelled from the spec: Commitlog.Add(key, status, frame) appends the
frame at the current end offset, adds an IndexEntry for the key_hash and
grows the size by the frame size (spec section 4.5). -/
def Commitlog.Add (cl : Commitlog) (df : DataDefinition) : Commitlog :=
  { frames := cl.frames ++ [(cl.size, df)]
    summary := summaryAdd cl.summary ⟨Hash32 df.key, df.status, cl.size⟩
    size := cl.size + df.size }

/-- Modelled from the spec: Commitlog.Get(key) consults the commitlog's
IndexSummary by the hash of the key and returns the frame recorded
there, or none (spec section 4.5). -/
def Commitlog.GetByKey (cl : Commitlog) (key : String) : Option DataDefinition :=
  match summaryLookUp cl.summary (Hash32 key) with
  | some e => (cl.frames.find? (fun p => p.1 = e.Offset)).map (fun p => p.2)
  | none => none

/-- Modelled from the spec: NewCommitLog creates a fresh empty commitlog
at the commitlog path (spec section 4.5). -/
def NewCommitLog : Commitlog := ⟨[], [], 0⟩

/-- On-disk contents of one sealed DataFile directory: the data file's
frames by offset, the index file's entries, and the bloom-filter file
(none until Create is called for it). -/
structure DataDirFiles where
  frames : List (Nat × DataDefinition)
  indexEntries : List Entry
  bloomFile : Option BloomFilter
deriving DecidableEq

/-- The database directory on disk.  commitlogFileIsData records whether
the data file inside the commitlog directory has already been renamed to
a data-kind file (step one of rotation); commitlogDirPresent records
whether the commitlog directory itself is still at its path; dirs maps
each timestamp-named DataFile directory to its files. -/
structure Disk where
  commitlogFileIsData : Bool
  commitlogDirPresent : Bool
  dirs : List (Nat × DataDirFiles)
deriving DecidableEq

def diskLookup (d : Disk) (path : Nat) : Option DataDirFiles :=
  (d.dirs.find? (fun p => p.1 = path)).map (fun p => p.2)

/-- util.DeleteDir on a DataFile directory: the directory and all its
files disappear from disk. -/
def diskDeleteDir (d : Disk) (path : Nat) : Disk :=
  { d with dirs := d.dirs.filter (fun p => p.1 ≠ path) }

/-- dataHolder (db.go): path of the sealed directory plus the in-memory
index summary and bloom filter.  The storage handle is represented by
the path, through which reads consult the Disk. -/
structure dataHolder where
  path : Nat
  summary : List Entry
  bloomfilter : BloomFilter
deriving DecidableEq

/-- dataHolder.Get (db.go:131).  Opening the data file or reading the
frame at the position can fail; in both cases the Go code logs
ErrFileCorrupted and returns (nil, nil) — no error is ever returned.
The none result models that nil byte stream. -/
def dataHolder.Get (dh : dataHolder) (disk : Disk) (position : Nat) :
    Option DataDefinition :=
  match diskLookup disk dh.path with
  | none => none
  | some files => (files.frames.find? (fun p => p.1 = position)).map (fun p => p.2)

/-- Outcome flags for the fallible steps of newDataHolder: the rename of
the commitlog file to a data file, the rename of the commitlog directory,
engine.OpenFile on the new directory, LoadIndex, Create of the
bloom-filter file, and the Append writing its contents. -/
structure RotateOutcome where
  renameFileOk : Bool
  renameDirOk : Bool
  openOk : Bool
  loadIndexOk : Bool
  createBloomOk : Bool
  appendBloomOk : Bool
deriving DecidableEq

/-- The bloom filter newDataHolder builds from the summary table:
every key_hash, stringified in decimal, is added (db.go:74-79). -/
def buildBloom (entries : List Entry) : BloomFilter :=
  entries.foldl (fun bf e => bf.Add (toString e.Key)) NewBloomFilter

/-- newDataHolder (db.go:41): seals the current commitlog into a new
DataFile directory.  Mirrors the Go control flow step by step; on an
error return the Disk component reflects whatever renames already
happened.  Note the Go code checks the error of Create for the
bloom-filter file but discards the error of the Append that writes its
contents (db.go:88-90): an append failure leaves the created file
without the filter (modelled as the empty filter) and still returns
success. -/
def newDataHolder (sto : Commitlog) (disk : Disk) (newPath : Nat)
    (fx : RotateOutcome) : Option dataHolder × Disk :=
  if !fx.renameFileOk then (none, disk)
  else
    let disk1 : Disk := { disk with commitlogFileIsData := true }
    if !fx.renameDirOk then (none, disk1)
    else
      let movedFiles : DataDirFiles := ⟨sto.frames, sto.summary, none⟩
      let disk2 : Disk :=
        { commitlogFileIsData := false
          commitlogDirPresent := false
          dirs := disk1.dirs ++ [(newPath, movedFiles)] }
      if !fx.openOk then (none, disk2)
      else if !fx.loadIndexOk then (none, disk2)
      else
        let summary := movedFiles.indexEntries
        let bf := buildBloom summary
        if !fx.createBloomOk then (none, disk2)
        else
          let content := if fx.appendBloomOk then bf else NewBloomFilter
          let disk3 : Disk :=
            { disk2 with
                dirs := (disk2.dirs.filter (fun p => p.1 ≠ newPath)) ++
                  [(newPath, ⟨sto.frames, sto.summary, some content⟩)] }
          (some ⟨newPath, summary, bf⟩, disk3)

/-- Outcome flags for openDataHolder: engine.OpenFile, LoadIndex, Open of
the bloom-filter file, and the Read of its contents. -/
structure OpenOutcome where
  openOk : Bool
  loadIndexOk : Bool
  bloomOpenOk : Bool
  bloomReadOk : Bool
deriving DecidableEq

/-- openDataHolder (db.go:95): reloads a sealed DataFile directory from
disk.  Open and LoadIndex failures surface as errors; the bloom-filter
file must Open, but the error of the Read of its contents is swallowed
(db.go:123-126) — on a failed read the dataHolder keeps the zero-value
(empty) bloom filter. -/
def openDataHolder (disk : Disk) (path : Nat) (fx : OpenOutcome) :
    Option dataHolder :=
  if !fx.openOk then none
  else
    match diskLookup disk path with
    | none => none
    | some files =>
      if !fx.loadIndexOk then none
      else
        match files.bloomFile with
        | none => none
        | some f =>
          if !fx.bloomOpenOk then none
          else some ⟨path, files.indexEntries, if fx.bloomReadOk then f else NewBloomFilter⟩

/-- Database (db.go:24): the commitlog, the newest-last list of
dataHolders, the cache, the MaxDataLogSize descriptor field, the on-disk
state, and a clock supplying fresh nanosecond directory names. -/
structure Database where
  commitlog : Commitlog
  dhList : List dataHolder
  cache : List (Nat × DataDefinition)
  maxDataLogSize : Nat
  disk : Disk
  clock : Nat
deriving DecidableEq

/-- Outcome flags for the fallible steps of InsertData: commitlog.Size,
the rotation steps, and commitlog.Add. -/
structure InsertOutcome where
  sizeOk : Bool
  rot : RotateOutcome
  addOk : Bool
deriving DecidableEq

/-- Result tag of InsertData: success or which step returned the error. -/
inductive InsResult where
  | ok
  | errSize
  | errRotate
  | errAdd
deriving DecidableEq

/-- InsertData (db.go:154): put the record in the cache, read the
commitlog size, roll the commitlog into a DataFile when the size plus
the record size exceeds MaxDataLogSize, then append to the commitlog.
Every error returns immediately, with the state mutated exactly as far
as the Go code had mutated it.  NewCommitLog restores the commitlog
directory on disk. -/
def InsertData (db : Database) (df : DataDefinition) (fx : InsertOutcome) :
    Database × InsResult :=
  let hKey := Hash32 df.key
  let db1 : Database := { db with cache := cachePut db.cache hKey df }
  if !fx.sizeOk then (db1, .errSize)
  else
    let size := db1.commitlog.size
    let roll : Database ⊕ Database :=
      if size + df.size > db1.maxDataLogSize then
        match newDataHolder db1.commitlog db1.disk db1.clock fx.rot with
        | (none, disk1) => Sum.inl { db1 with disk := disk1 }
        | (some ndh, disk1) =>
          Sum.inr { db1 with
            disk := { disk1 with commitlogFileIsData := false, commitlogDirPresent := true }
            dhList := db1.dhList ++ [ndh]
            commitlog := NewCommitLog
            clock := db1.clock + 1 }
      else Sum.inr db1
    match roll with
    | Sum.inl dbe => (dbe, .errRotate)
    | Sum.inr db2 =>
      if !fx.addOk then (db2, .errAdd)
      else ({ db2 with commitlog := db2.commitlog.Add df }, .ok)

/-- The data-file scan of GetDataByKey (db.go:214-224), given the
dataHolders in newest-first order: skip a holder whose bloom filter does
not contain the stringified key_hash; on a summary hit, return the read
of the recorded offset unconditionally.  When that read yields the nil
byte stream (corruption), the Go code passes nil to
model.NewDataDefinitionFromByteStream, which panics; the deferred
recover at the top of GetDataByKey swallows the panic and the function
returns (nil, false) — modelled by the none result, with no further
scanning of older holders. -/
def searchDataHolders (disk : Disk) (dhs : List dataHolder) (hkey : Nat)
    (strKey : String) : Option DataDefinition :=
  match dhs with
  | [] => none
  | dh :: rest =>
    if dh.bloomfilter.Contains strKey then
      match summaryLookUp dh.summary hkey with
      | some e => dh.Get disk e.Offset
      | none => searchDataHolders disk rest hkey strKey
    else searchDataHolders disk rest hkey strKey

/-- GetDataByKey (db.go:189): cache by key_hash, then the commitlog (on a
hit the cache is filled), then the DataFiles from newest to oldest.
Returns the found record (none = the (nil, false) return) together with
the database as mutated by the cache fill. -/
def GetDataByKey (db : Database) (key : String) :
    Option DataDefinition × Database :=
  let hkey := Hash32 key
  match cacheGet db.cache hkey with
  | some c => (some c, db)
  | none =>
    match db.commitlog.GetByKey key with
    | some bs => (some bs, { db with cache := cachePut db.cache hkey bs })
    | none =>
      let strKey := toString hkey
      (searchDataHolders db.disk db.dhList.reverse hkey strKey, db)

/-- tombstoneMark (compaction file): a REMOVED index entry tagged with
its owning file path (none tags the commitlog's path). -/
structure TombstoneMark where
  path : Option Nat
  entry : Entry
deriving DecidableEq

/-- geTombstonesFromDb (compaction file): all REMOVED entries of every
dataHolder's summary, tagged with the holder's path.  The Go code fans
this out over goroutines joined by a channel; it is modelled by the
sequential schedule in list order. -/
def geTombstonesFromDb (db : Database) : List TombstoneMark :=
  db.dhList.foldl
    (fun acc dh =>
      acc ++ (dh.summary.filter (fun e => e.Status = .removed)).map
        (fun e => ⟨some dh.path, e⟩)) []

/-- getTombstonesFromCommitlog (compaction file): all REMOVED entries of
the commitlog's summary, tagged with the commitlog path. -/
def getTombstonesFromCommitlog (db : Database) : List TombstoneMark :=
  (db.commitlog.summary.filter (fun e => e.Status = .removed)).map
    (fun e => ⟨none, e⟩)

/-- containsKey (compaction file): is the key_hash among the tombstones. -/
def containsKey (key : Nat) (list : List TombstoneMark) : Bool :=
  list.any (fun tb => tb.entry.Key = key)

/-- dhContainsAnyTombstone (compaction file): does the dataHolder's
summary contain any tombstoned key_hash. -/
def dhContainsAnyTombstone (dh : dataHolder) (list : List TombstoneMark) : Bool :=
  list.any (fun v => (summaryLookUp dh.summary v.entry.Key).isSome)

/-- The inner rewrite loop of doCompaction over one dataHolder's summary
table: a tombstoned entry is skipped; for a survivor the frame is read
with `bs, _ := dh.Get(v.Offset)` — the error discarded — and appended
with `db.commitlog.Add(...)` whose error is also discarded (a failed
append leaves the commitlog unchanged and the loop continues).  When the
read yields the nil byte stream, model.NewDataDefinitionFromByteStream
panics with no recover in the compaction goroutine; the none result
models that aborted run.  addOk tells, per append counter, whether the
commitlog append succeeds. -/
def rewriteEntries (disk : Disk) (dh : dataHolder) (entries : List Entry)
    (tombstones : List TombstoneMark) (cl : Commitlog) (ctr : Nat)
    (addOk : Nat → Bool) : Option (Commitlog × Nat) :=
  match entries with
  | [] => some (cl, ctr)
  | v :: rest =>
    if containsKey v.Key tombstones then
      rewriteEntries disk dh rest tombstones cl ctr addOk
    else
      match dh.Get disk v.Offset with
      | none => none
      | some bs =>
        let cl1 := if addOk ctr then cl.Add bs else cl
        rewriteEntries disk dh rest tombstones cl1 (ctr + 1) addOk

/-- The outer loop of doCompaction over the dataHolder list: a holder
whose summary meets the tombstone set has its survivors rewritten into
the commitlog and its directory deleted; any other holder is untouched. -/
def compactLoop (dhs : List dataHolder) (tombstones : List TombstoneMark)
    (cl : Commitlog) (disk : Disk) (ctr : Nat) (addOk : Nat → Bool) :
    Option (Commitlog × Disk × Nat) :=
  match dhs with
  | [] => some (cl, disk, ctr)
  | dh :: rest =>
    if dhContainsAnyTombstone dh tombstones then
      match rewriteEntries disk dh dh.summary tombstones cl ctr addOk with
      | none => none
      | some (cl1, ctr1) =>
        compactLoop rest tombstones cl1 (diskDeleteDir disk dh.path) ctr1 addOk
    else compactLoop rest tombstones cl disk ctr addOk

/-- The tombstone set doCompaction gathers before its main loop. -/
def tombstoneSetOf (db : Database) : List TombstoneMark :=
  geTombstonesFromDb db ++ getTombstonesFromCommitlog db

/-- doCompaction (compaction file, lines 91-124): collect the tombstones
from every dataHolder and the commitlog, then run the main loop.  The
in-memory dhList and cache are never touched; only the commitlog grows
and DataFile directories are deleted from disk. -/
def doCompaction (db : Database) (addOk : Nat → Bool) : Option Database :=
  let tombstones := tombstoneSetOf db
  match compactLoop db.dhList tombstones db.commitlog db.disk 0 addOk with
  | none => none
  | some (cl1, disk1, _) => some { db with commitlog := cl1, disk := disk1 }

/-- Well-formedness of a database state, as established by the write
path (spec section 3 invariants): every commitlog summary entry's offset
resolves to a frame, every dataHolder summary entry's offset resolves
through the holder's directory on disk, and every dataHolder's bloom
filter contains the stringified key_hash of every summary entry. -/
def dbWf (db : Database) : Bool :=
  db.commitlog.summary.all (fun e =>
    (db.commitlog.frames.find? (fun p => p.1 = e.Offset)).isSome) &&
  db.dhList.all (fun dh =>
    dh.summary.all (fun e => (dh.Get db.disk e.Offset).isSome)) &&
  db.dhList.all (fun dh =>
    dh.summary.all (fun e => dh.bloomfilter.Contains (toString e.Key)))

/-- Some store of the database holds the key_hash: the cache, the
commitlog's summary, or some dataHolder's summary. -/
def holdsKeyB (db : Database) (hkey : Nat) : Bool :=
  (cacheGet db.cache hkey).isSome ||
  (summaryLookUp db.commitlog.summary hkey).isSome ||
  db.dhList.any (fun dh => (summaryLookUp dh.summary hkey).isSome)

/-- The dataHolder directory names are pairwise distinct (they are
created from strictly increasing nanosecond timestamps). -/
def pathsNodup (db : Database) : Prop :=
  (db.dhList.map dataHolder.path).Nodup

/-- The frames the spec expects compaction to re-append for one
DataFile: the frames of exactly those of its index entries whose
key_hash is not in the tombstone set (spec section 4.9, step 2). -/
def survivorFrames (disk : Disk) (tombstones : List TombstoneMark)
    (dh : dataHolder) : List DataDefinition :=
  (dh.summary.filter (fun e => !(containsKey e.Key tombstones))).filterMap
    (fun e => dh.Get disk e.Offset)

/-- All rotation I/O succeeds. -/
def allRotOk : RotateOutcome := ⟨true, true, true, true, true, true⟩

/-- All insert I/O succeeds. -/
def allInsOk : InsertOutcome := ⟨true, allRotOk, true⟩

def kf : String := "f"

def ka : String := "a"

def kg : String := "g"

def kx : String := "x"

def ky : String := "y"

/-- Concrete trace for C3: an ACTIVE record for key f. -/
def recFA : DataDefinition := ⟨kf, .active, [1], 1⟩

/-- Concrete trace for C3: the tombstone for key f. -/
def recFR : DataDefinition := ⟨kf, .removed, [], 1⟩

/-- Fresh database with MaxDataLogSize 1 so the second insert rolls
the commitlog over. -/
def c3db0 : Database := ⟨NewCommitLog, [], [], 1, ⟨false, true, []⟩, 100⟩

def c3db1 : Database := (InsertData c3db0 recFA allInsOk).1

/-- State after Insert {f, ACTIVE}, then Insert {f, REMOVED}; the second
insert first rolls the commitlog (holding the ACTIVE version) into the
DataFile directory 100. -/
def c3db2 : Database := (InsertData c3db1 recFR allInsOk).1

/-- State after one compaction run on c3db2 with all appends
succeeding. -/
def c3db3 : Database := (doCompaction c3db2 (fun _ => true)).getD c3db2

/-- Fixture for C4: a record of size 1. -/
def c4rec : DataDefinition := ⟨ka, .active, [1], 1⟩

/-- Fixture for C4: a commitlog already holding one frame of size 1. -/
def c4cl : Commitlog := ⟨[(0, c4rec)], [⟨Hash32 ka, .active, 0⟩], 1⟩

/-- Fixture for C4: database at its MaxDataLogSize, so the next insert
triggers rotation. -/
def c4db : Database := ⟨c4cl, [], [], 1, ⟨false, true, []⟩, 50⟩

/-- Fixture for C4: the rename of the commitlog directory fails. -/
def c4fx : InsertOutcome := ⟨true, ⟨true, false, true, true, true, true⟩, true⟩

/-- Fixture for C5: a record larger than MaxDataLogSize 1. -/
def c5rec : DataDefinition := ⟨ka, .active, [1, 2], 2⟩

def c5db : Database := ⟨NewCommitLog, [], [], 1, ⟨false, true, []⟩, 70⟩

/-- Fixture for C6: the record in the sealed directory 5. -/
def c6rec : DataDefinition := ⟨kg, .active, [3], 1⟩

def c6e : Entry := ⟨Hash32 kg, .active, 0⟩

/-- Fixture for C6: the bloom filter the rotation wrote for directory 5,
covering the one key. -/
def c6bf : BloomFilter := ⟨[toString (Hash32 kg)]⟩

def c6disk : Disk := ⟨false, true, [(5, ⟨[(0, c6rec)], [c6e], some c6bf⟩)]⟩

/-- Fixture for C6: reading the bloom-filter file's contents fails. -/
def c6fx : OpenOutcome := ⟨true, true, true, false⟩

def c6dh : dataHolder :=
  (openDataHolder c6disk 5 c6fx).getD ⟨0, [], NewBloomFilter⟩

/-- Fixture for C7: the readable record for key g in the older file. -/
def c7rec : DataDefinition := ⟨kg, .active, [7], 1⟩

def c7eg : Entry := ⟨Hash32 kg, .active, 0⟩

def c7bf : BloomFilter := ⟨[toString (Hash32 kg)]⟩

/-- Fixture for C7: the older holder, directory 1, whose frame for g is
intact. -/
def c7old : dataHolder := ⟨1, [c7eg], c7bf⟩

/-- Fixture for C7: the newer holder, directory 2, whose summary has g
but whose data file has lost the frame (corrupted). -/
def c7new : dataHolder := ⟨2, [c7eg], c7bf⟩

def c7disk : Disk :=
  ⟨false, true, [(1, ⟨[(0, c7rec)], [c7eg], some c7bf⟩), (2, ⟨[], [c7eg], some c7bf⟩)]⟩

def c7db : Database := ⟨NewCommitLog, [c7old, c7new], [], 10, c7disk, 90⟩

/-- Fixture for C8: a small record; the commitlog has room, so no
rotation happens and only the append can fail. -/
def c8rec : DataDefinition := ⟨ka, .active, [8], 1⟩

def c8db : Database := ⟨NewCommitLog, [], [], 10, ⟨false, true, []⟩, 60⟩

/-- Fixture for C8: the commitlog append fails. -/
def c8fx : InsertOutcome := ⟨true, allRotOk, false⟩

/-- Fixture for C9 (also used for C1, C2, C10): the tombstone frame for
key x sitting in the commitlog. -/
def c9recXr : DataDefinition := ⟨kx, .removed, [], 1⟩

/-- Fixture for C9: the old ACTIVE record for x inside directory 7. -/
def c9recX : DataDefinition := ⟨kx, .active, [1], 1⟩

/-- Fixture for C9: the live record for y inside directory 7 — the
survivor compaction must rewrite. -/
def c9recY : DataDefinition := ⟨ky, .active, [2], 1⟩

def c9ex : Entry := ⟨Hash32 kx, .active, 0⟩

def c9ey : Entry := ⟨Hash32 ky, .active, 1⟩

def c9cl : Commitlog := ⟨[(0, c9recXr)], [⟨Hash32 kx, .removed, 0⟩], 1⟩

def c9bf : BloomFilter := ⟨[toString (Hash32 kx), toString (Hash32 ky)]⟩

def c9dh : dataHolder := ⟨7, [c9ex, c9ey], c9bf⟩

def c9disk : Disk :=
  ⟨false, true, [(7, ⟨[(0, c9recX), (1, c9recY)], [c9ex, c9ey], some c9bf⟩)]⟩

/-- Fixture for C9: a database whose commitlog holds a tombstone for x
and whose single DataFile holds x (tombstoned) and y (live). -/
def c9db : Database := ⟨c9cl, [c9dh], [], 10, c9disk, 80⟩

/-- Fixture for C9: compaction run in which every commitlog append
fails. -/
def c9dbBad : Database := (doCompaction c9db (fun _ => false)).getD c9db

/-- Fixture for C10: compaction run on c9db with all appends
succeeding. -/
def c10db : Database := (doCompaction c9db (fun _ => true)).getD c9db

/-- Fixture for the C6 witness: a successful rotation of c9cl into
directory 9. -/
def c6rot : Option dataHolder × Disk :=
  newDataHolder c9cl ⟨false, true, []⟩ 9 allRotOk

def c6rotdh : dataHolder := c6rot.1.getD ⟨0, [], NewBloomFilter⟩

/-- Fixture for the C5 witness: the state after a successful small
insert into c8db. -/
def c5wdb : Database := (InsertData c8db c8rec allInsOk).1

/-- Fixture for the C8 witness: the state after the failing-append
insert into c8db. -/
def c8wdb : Database := (InsertData c8db c8rec c8fx).1

theorem bloom_contains_add_self (bf : BloomFilter) (s : String) :
    (bf.Add s).Contains s = true := by
  simp [BloomFilter.Add, BloomFilter.Contains]

theorem bloom_contains_add_of (bf : BloomFilter) (s t : String)
    (h : bf.Contains s = true) : (bf.Add t).Contains s = true := by
  simp [BloomFilter.Add, BloomFilter.Contains] at h ⊢
  exact Or.inr h

theorem bloom_foldl_mono (l : List Entry) (bf : BloomFilter) (s : String)
    (h : bf.Contains s = true) :
    (l.foldl (fun b e => b.Add (toString e.Key)) bf).Contains s = true := by
  induction l generalizing bf with
  | nil => simpa using h
  | cons a l ih => exact ih _ (bloom_contains_add_of _ _ _ h)

theorem buildBloom_contains (entries : List Entry) (e : Entry)
    (he : e ∈ entries) :
    (buildBloom entries).Contains (toString e.Key) = true := by
  unfold buildBloom
  generalize NewBloomFilter = bf
  induction entries generalizing bf with
  | nil => cases he
  | cons a l ih =>
    rcases List.mem_cons.mp he with rfl | hmem
    · simp only [List.foldl_cons]
      exact bloom_foldl_mono _ _ _ (bloom_contains_add_self _ _)
    · exact ih hmem _

theorem find?_filter_ne (l : List (Nat × DataDirFiles)) (p q : Nat)
    (h : q ≠ p) :
    (l.filter (fun x => x.1 ≠ p)).find? (fun x => x.1 = q) =
      l.find? (fun x => x.1 = q) := by
  rw [List.find?_filter]
  congr 1
  funext a
  by_cases hap : a.1 = p
  · have haq : ¬(a.1 = q) := fun hq => h (hq ▸ hap ▸ rfl)
    simp [hap, haq]
    exact h.symm
  · simp [hap]

theorem find?_filter_self (l : List (Nat × DataDirFiles)) (p : Nat) :
    (l.filter (fun x => x.1 ≠ p)).find? (fun x => x.1 = p) = none := by
  rw [List.find?_filter, List.find?_eq_none]
  intro x hx
  by_cases hxp : x.1 = p <;> simp [hxp]

theorem diskLookup_deleteDir_self (d : Disk) (p : Nat) :
    diskLookup (diskDeleteDir d p) p = none := by
  simp only [diskLookup, diskDeleteDir]
  rw [find?_filter_self]
  rfl

theorem diskLookup_deleteDir_ne (d : Disk) (p q : Nat) (h : q ≠ p) :
    diskLookup (diskDeleteDir d p) q = diskLookup d q := by
  simp only [diskLookup, diskDeleteDir]
  rw [find?_filter_ne _ _ _ h]

theorem diskLookup_deleteDir_none (d : Disk) (p q : Nat)
    (h : diskLookup d q = none) :
    diskLookup (diskDeleteDir d p) q = none := by
  by_cases hqp : q = p
  · subst hqp; exact diskLookup_deleteDir_self _ _
  · rw [diskLookup_deleteDir_ne _ _ _ hqp]; exact h

theorem dataHolder_Get_deleteDir_ne (dh : dataHolder) (d : Disk) (p : Nat)
    (h : dh.path ≠ p) (pos : Nat) :
    dh.Get (diskDeleteDir d p) pos = dh.Get d pos := by
  simp [dataHolder.Get, diskLookup_deleteDir_ne _ _ _ h]

theorem dataHolder_Get_of_dir_none (dh : dataHolder) (d : Disk)
    (h : diskLookup d dh.path = none) (pos : Nat) :
    dh.Get d pos = none := by
  simp [dataHolder.Get, h]

theorem survivorFrames_deleteDir_ne (disk : Disk) (T : List TombstoneMark)
    (dh : dataHolder) (p : Nat) (h : dh.path ≠ p) :
    survivorFrames (diskDeleteDir disk p) T dh = survivorFrames disk T dh := by
  simp [survivorFrames, dataHolder_Get_deleteDir_ne _ _ _ h]

theorem add_frames_map (cl : Commitlog) (df : DataDefinition) :
    (cl.Add df).frames.map Prod.snd = cl.frames.map Prod.snd ++ [df] := by
  simp [Commitlog.Add]

theorem cacheGet_put_self (c : List (Nat × DataDefinition)) (k : Nat)
    (v : DataDefinition) : cacheGet (cachePut c k v) k = some v := by
  simp [cacheGet, cachePut]

theorem rewriteEntries_true_spec (disk : Disk) (dh : dataHolder)
    (entries : List Entry) (T : List TombstoneMark) :
    ∀ (cl : Commitlog) (ctr : Nat),
    (∀ e ∈ entries, (dh.Get disk e.Offset).isSome = true) →
    ∃ cl1 ctr1,
      rewriteEntries disk dh entries T cl ctr (fun _ => true) = some (cl1, ctr1) ∧
      cl1.frames.map Prod.snd = cl.frames.map Prod.snd ++
        (entries.filter (fun e => !(containsKey e.Key T))).filterMap
          (fun e => dh.Get disk e.Offset) := by
  induction entries with
  | nil =>
    intro cl ctr _
    exact ⟨cl, ctr, rfl, by simp⟩
  | cons v rest ih =>
    intro cl ctr hread
    cases hv : containsKey v.Key T with
    | true =>
      obtain ⟨cl1, ctr1, heq, hmap⟩ :=
        ih cl ctr (fun e he => hread e (List.mem_cons_of_mem _ he))
      refine ⟨cl1, ctr1, ?_, ?_⟩
      · simpa [rewriteEntries, hv] using heq
      · simpa [List.filter_cons, hv] using hmap
    | false =>
      obtain ⟨bs, hbs⟩ := Option.isSome_iff_exists.mp (hread v (List.mem_cons_self _ _))
      obtain ⟨cl1, ctr1, heq, hmap⟩ :=
        ih (cl.Add bs) (ctr + 1) (fun e he => hread e (List.mem_cons_of_mem _ he))
      refine ⟨cl1, ctr1, ?_, ?_⟩
      · simpa [rewriteEntries, hv, hbs] using heq
      · rw [hmap, add_frames_map]
        simp [List.filter_cons, hv, List.filterMap_cons, hbs]

theorem rewriteEntries_isSome (disk : Disk) (dh : dataHolder)
    (entries : List Entry) (T : List TombstoneMark) (addOk : Nat → Bool) :
    ∀ (cl : Commitlog) (ctr : Nat),
    (∀ e ∈ entries, (dh.Get disk e.Offset).isSome = true) →
    (rewriteEntries disk dh entries T cl ctr addOk).isSome = true := by
  induction entries with
  | nil => intro cl ctr _; rfl
  | cons v rest ih =>
    intro cl ctr hread
    cases hv : containsKey v.Key T with
    | true =>
      simpa [rewriteEntries, hv] using
        ih cl ctr (fun e he => hread e (List.mem_cons_of_mem _ he))
    | false =>
      obtain ⟨bs, hbs⟩ := Option.isSome_iff_exists.mp (hread v (List.mem_cons_self _ _))
      simp only [rewriteEntries, hv, hbs]
      cases addOk ctr <;>
        simpa using ih _ (ctr + 1) (fun e he => hread e (List.mem_cons_of_mem _ he))

theorem compactLoop_lookup_none (T : List TombstoneMark) (addOk : Nat → Bool)
    (dhs : List dataHolder) :
    ∀ (cl : Commitlog) (disk : Disk) (ctr : Nat) (r : Commitlog × Disk × Nat) (p : Nat),
    compactLoop dhs T cl disk ctr addOk = some r →
    diskLookup disk p = none → diskLookup r.2.1 p = none := by
  induction dhs with
  | nil =>
    intro cl disk ctr r p h hp
    cases h
    exact hp
  | cons dh rest ih =>
    intro cl disk ctr r p h hp
    cases haff : dhContainsAnyTombstone dh T with
    | false =>
      simp only [compactLoop, haff] at h
      exact ih _ _ _ _ _ h hp
    | true =>
      simp only [compactLoop, haff] at h
      cases hrw : rewriteEntries disk dh dh.summary T cl ctr addOk with
      | none => rw [hrw] at h; cases h
      | some pr =>
        obtain ⟨cl1, ctr1⟩ := pr
        rw [hrw] at h
        exact ih _ _ _ _ _ h (diskLookup_deleteDir_none _ _ _ hp)

theorem compactLoop_lookup_preserved (T : List TombstoneMark) (addOk : Nat → Bool)
    (dhs : List dataHolder) :
    ∀ (cl : Commitlog) (disk : Disk) (ctr : Nat) (r : Commitlog × Disk × Nat) (p : Nat),
    compactLoop dhs T cl disk ctr addOk = some r →
    p ∉ dhs.map dataHolder.path →
    diskLookup r.2.1 p = diskLookup disk p := by
  induction dhs with
  | nil =>
    intro cl disk ctr r p h _
    cases h
    rfl
  | cons dh rest ih =>
    intro cl disk ctr r p h hp
    have hp1 : p ≠ dh.path := by
      intro hc; exact hp (by simp [hc])
    have hp2 : p ∉ rest.map dataHolder.path := by
      intro hc; exact hp (by simp [hc])
    cases haff : dhContainsAnyTombstone dh T with
    | false =>
      simp only [compactLoop, haff] at h
      exact ih _ _ _ _ _ h hp2
    | true =>
      simp only [compactLoop, haff] at h
      cases hrw : rewriteEntries disk dh dh.summary T cl ctr addOk with
      | none => rw [hrw] at h; cases h
      | some pr =>
        obtain ⟨cl1, ctr1⟩ := pr
        rw [hrw] at h
        rw [ih _ _ _ _ _ h hp2]
        exact diskLookup_deleteDir_ne _ _ _ hp1

theorem compactLoop_deletes (T : List TombstoneMark) (addOk : Nat → Bool)
    (dhs : List dataHolder) :
    ∀ (cl : Commitlog) (disk : Disk) (ctr : Nat) (r : Commitlog × Disk × Nat),
    compactLoop dhs T cl disk ctr addOk = some r →
    ∀ dh ∈ dhs, dhContainsAnyTombstone dh T = true →
    diskLookup r.2.1 dh.path = none := by
  induction dhs with
  | nil =>
    intro cl disk ctr r _ dh hmem
    cases hmem
  | cons dh0 rest ih =>
    intro cl disk ctr r h dh hmem haff
    rcases List.mem_cons.mp hmem with rfl | hmem1
    · simp only [compactLoop, haff] at h
      cases hrw : rewriteEntries disk dh dh.summary T cl ctr addOk with
      | none => rw [hrw] at h; cases h
      | some pr =>
        obtain ⟨cl1, ctr1⟩ := pr
        rw [hrw] at h
        exact compactLoop_lookup_none _ _ _ _ _ _ _ _ h (diskLookup_deleteDir_self _ _)
    · cases haff0 : dhContainsAnyTombstone dh0 T with
      | false =>
        simp only [compactLoop, haff0] at h
        exact ih _ _ _ _ h dh hmem1 haff
      | true =>
        simp only [compactLoop, haff0] at h
        cases hrw : rewriteEntries disk dh0 dh0.summary T cl ctr addOk with
        | none => rw [hrw] at h; cases h
        | some pr =>
          obtain ⟨cl1, ctr1⟩ := pr
          rw [hrw] at h
          exact ih _ _ _ _ h dh hmem1 haff

theorem compactLoop_isSome (T : List TombstoneMark) (addOk : Nat → Bool)
    (dhs : List dataHolder) :
    ∀ (cl : Commitlog) (disk : Disk) (ctr : Nat),
    (∀ dh ∈ dhs, ∀ e ∈ dh.summary, (dh.Get disk e.Offset).isSome = true) →
    (dhs.map dataHolder.path).Nodup →
    (compactLoop dhs T cl disk ctr addOk).isSome = true := by
  induction dhs with
  | nil => intro cl disk ctr _ _; rfl
  | cons dh0 rest ih =>
    intro cl disk ctr hread hnd
    rw [List.map_cons, List.nodup_cons] at hnd
    obtain ⟨hnd0, hndr⟩ := hnd
    cases haff0 : dhContainsAnyTombstone dh0 T with
    | false =>
      simp only [compactLoop, haff0]
      exact ih _ _ _ (fun dh h e he => hread dh (List.mem_cons_of_mem _ h) e he) hndr
    | true =>
      obtain ⟨pr, hpr⟩ := Option.isSome_iff_exists.mp
        (rewriteEntries_isSome disk dh0 dh0.summary T addOk cl ctr
          (hread dh0 (List.mem_cons_self _ _)))
      obtain ⟨clA, ctrA⟩ := pr
      have hreadr : ∀ dh ∈ rest, ∀ e ∈ dh.summary,
          (dh.Get (diskDeleteDir disk dh0.path) e.Offset).isSome = true := by
        intro dh hmem e he
        have hne : dh.path ≠ dh0.path := by
          intro hc
          exact hnd0 (List.mem_map.mpr ⟨dh, hmem, hc⟩)
        rw [dataHolder_Get_deleteDir_ne _ _ _ hne]
        exact hread dh (List.mem_cons_of_mem _ hmem) e he
      simp only [compactLoop, haff0, hpr]
      exact ih clA (diskDeleteDir disk dh0.path) ctrA hreadr hndr

theorem compactLoop_true_spec (T : List TombstoneMark) (dhs : List dataHolder) :
    ∀ (cl : Commitlog) (disk : Disk) (ctr : Nat),
    (∀ dh ∈ dhs, ∀ e ∈ dh.summary, (dh.Get disk e.Offset).isSome = true) →
    (dhs.map dataHolder.path).Nodup →
    ∃ cl1 disk1 ctr1,
      compactLoop dhs T cl disk ctr (fun _ => true) = some (cl1, disk1, ctr1) ∧
      cl1.frames.map Prod.snd = cl.frames.map Prod.snd ++
        (dhs.filter (fun dh => dhContainsAnyTombstone dh T)).flatMap
          (fun dh => survivorFrames disk T dh) ∧
      (∀ dh ∈ dhs, dhContainsAnyTombstone dh T = false →
        diskLookup disk1 dh.path = diskLookup disk dh.path) := by
  induction dhs with
  | nil =>
    intro cl disk ctr _ _
    exact ⟨cl, disk, ctr, rfl, by simp, by intro dh hmem; cases hmem⟩
  | cons dh0 rest ih =>
    intro cl disk ctr hread hnd
    rw [List.map_cons, List.nodup_cons] at hnd
    obtain ⟨hnd0, hndr⟩ := hnd
    cases haff0 : dhContainsAnyTombstone dh0 T with
    | false =>
      obtain ⟨cl1, disk1, ctr1, heq, hmap, hpres⟩ :=
        ih cl disk ctr (fun dh h e he => hread dh (List.mem_cons_of_mem _ h) e he) hndr
      refine ⟨cl1, disk1, ctr1, ?_, ?_, ?_⟩
      · simpa [compactLoop, haff0] using heq
      · simpa [List.filter_cons, haff0] using hmap
      · intro dh hmem haff
        rcases List.mem_cons.mp hmem with rfl | hmem1
        · exact compactLoop_lookup_preserved _ _ _ _ _ _ _ _ heq hnd0
        · exact hpres dh hmem1 haff
    | true =>
      obtain ⟨clA, ctrA, hrw, hrwmap⟩ :=
        rewriteEntries_true_spec disk dh0 dh0.summary T cl ctr
          (hread dh0 (List.mem_cons_self _ _))
      have hreadr : ∀ dh ∈ rest, ∀ e ∈ dh.summary,
          (dh.Get (diskDeleteDir disk dh0.path) e.Offset).isSome = true := by
        intro dh hmem e he
        have hne : dh.path ≠ dh0.path := by
          intro hc
          exact hnd0 (List.mem_map.mpr ⟨dh, hmem, hc⟩)
        rw [dataHolder_Get_deleteDir_ne _ _ _ hne]
        exact hread dh (List.mem_cons_of_mem _ hmem) e he
      obtain ⟨cl1, disk1, ctr1, heq, hmap, hpres⟩ :=
        ih clA (diskDeleteDir disk dh0.path) ctrA hreadr hndr
      refine ⟨cl1, disk1, ctr1, ?_, ?_, ?_⟩
      · simp only [compactLoop, haff0, hrw]
        exact heq
      · rw [hmap]
        have hcong : (rest.filter (fun dh => dhContainsAnyTombstone dh T)).flatMap
              (fun dh => survivorFrames (diskDeleteDir disk dh0.path) T dh) =
            (rest.filter (fun dh => dhContainsAnyTombstone dh T)).flatMap
              (fun dh => survivorFrames disk T dh) := by
          apply List.flatMap_congr
          intro dh hmem
          have hne : dh.path ≠ dh0.path := by
            intro hc
            exact hnd0 (List.mem_map.mpr ⟨dh, List.mem_of_mem_filter hmem, hc⟩)
          exact survivorFrames_deleteDir_ne _ _ _ _ hne
        rw [hcong, hrwmap]
        have hsurv : (dh0.summary.filter (fun e => !(containsKey e.Key T))).filterMap
            (fun e => dh0.Get disk e.Offset) = survivorFrames disk T dh0 := rfl
        rw [hsurv]
        simp [List.filter_cons, haff0, List.flatMap_cons, List.append_assoc]
      · intro dh hmem haff
        rcases List.mem_cons.mp hmem with rfl | hmem1
        · rw [haff] at haff0; cases haff0
        · have hne : dh.path ≠ dh0.path := by
            intro hc
            exact hnd0 (List.mem_map.mpr ⟨dh, hmem1, hc⟩)
          rw [hpres dh hmem1 haff, diskLookup_deleteDir_ne _ _ _ hne]

theorem mem_foldl_append (dhs : List dataHolder)
    (f : dataHolder → List TombstoneMark) :
    ∀ (acc : List TombstoneMark) (t : TombstoneMark),
    t ∈ dhs.foldl (fun a dh => a ++ f dh) acc ↔ t ∈ acc ∨ ∃ dh ∈ dhs, t ∈ f dh := by
  induction dhs with
  | nil => intro acc t; simp
  | cons dh rest ih =>
    intro acc t
    rw [List.foldl_cons, ih]
    simp [List.mem_append, or_assoc]

theorem tombstoneSet_mem (db : Database) (t : TombstoneMark) :
    t ∈ tombstoneSetOf db ↔
      ((∃ dh ∈ db.dhList, t.path = some dh.path ∧ t.entry ∈ dh.summary ∧
          t.entry.Status = .removed) ∨
       (t.path = none ∧ t.entry ∈ db.commitlog.summary ∧
          t.entry.Status = .removed)) := by
  obtain ⟨tp, te⟩ := t
  unfold tombstoneSetOf geTombstonesFromDb getTombstonesFromCommitlog
  rw [List.mem_append, mem_foldl_append]
  simp only [List.mem_nil_iff, false_or, List.mem_map, List.mem_filter,
    TombstoneMark.mk.injEq, decide_eq_true_eq]
  constructor
  · rintro (⟨dh, hdh, e, ⟨he, hst⟩, hp, ht⟩ | ⟨e, ⟨he, hst⟩, hp, ht⟩)
    · exact Or.inl ⟨dh, hdh, hp.symm, ht ▸ he, ht ▸ hst⟩
    · exact Or.inr ⟨hp.symm, ht ▸ he, ht ▸ hst⟩
  · rintro (⟨dh, hdh, hp, he, hst⟩ | ⟨hp, he, hst⟩)
    · exact Or.inl ⟨dh, hdh, te, ⟨he, hst⟩, hp.symm, rfl⟩
    · exact Or.inr ⟨te, ⟨he, hst⟩, hp.symm, rfl⟩

theorem getByKey_none_iff (cl : Commitlog) (key : String)
    (hres : ∀ e ∈ cl.summary,
      (cl.frames.find? (fun p => p.1 = e.Offset)).isSome = true) :
    (cl.GetByKey key = none ↔ summaryLookUp cl.summary (Hash32 key) = none) := by
  unfold Commitlog.GetByKey
  cases hl : summaryLookUp cl.summary (Hash32 key) with
  | none => simp
  | some e =>
    have he : e ∈ cl.summary :=
      List.mem_of_find?_eq_some (by simpa [summaryLookUp] using hl)
    obtain ⟨x, hx⟩ := Option.isSome_iff_exists.mp (hres e he)
    simp [hx]

theorem searchDataHolders_none_iff (disk : Disk) (hkey : Nat)
    (dhs : List dataHolder)
    (hread : ∀ dh ∈ dhs, ∀ e ∈ dh.summary, (dh.Get disk e.Offset).isSome = true)
    (hbloom : ∀ dh ∈ dhs, ∀ e ∈ dh.summary,
      dh.bloomfilter.Contains (toString e.Key) = true) :
    (searchDataHolders disk dhs hkey (toString hkey) = none ↔
      ∀ dh ∈ dhs, summaryLookUp dh.summary hkey = none) := by
  induction dhs with
  | nil => simp [searchDataHolders]
  | cons dh rest ih =>
    have ih1 := ih (fun d h => hread d (List.mem_cons_of_mem _ h))
      (fun d h => hbloom d (List.mem_cons_of_mem _ h))
    cases hc : dh.bloomfilter.Contains (toString hkey) with
    | false =>
      have hnone : summaryLookUp dh.summary hkey = none := by
        cases hl : summaryLookUp dh.summary hkey with
        | none => rfl
        | some e =>
          have he : e ∈ dh.summary :=
            List.mem_of_find?_eq_some (by simpa [summaryLookUp] using hl)
          have hek : e.Key = hkey := by
            have := List.find?_some (by simpa [summaryLookUp] using hl)
            simpa using this
          have hcb := hbloom dh (List.mem_cons_self _ _) e he
          rw [hek] at hcb
          rw [hcb] at hc
          cases hc
      simp only [searchDataHolders, hc]
      rw [if_neg (by simp)]
      rw [ih1]
      simp [List.forall_mem_cons, hnone]
    | true =>
      cases hl : summaryLookUp dh.summary hkey with
      | some e =>
        have he : e ∈ dh.summary :=
          List.mem_of_find?_eq_some (by simpa [summaryLookUp] using hl)
        obtain ⟨x, hx⟩ :=
          Option.isSome_iff_exists.mp (hread dh (List.mem_cons_self _ _) e he)
        simp only [searchDataHolders, hc, if_true, hl, hx]
        simp [List.forall_mem_cons, hl]
      | none =>
        simp only [searchDataHolders, hc, if_true, hl]
        rw [ih1]
        simp [List.forall_mem_cons, hl]

/-- Claim C1: for every key, Get consults the stores in a fixed order —
cache by key_hash first, then the commitlog, then every DataFile from
newest to oldest gated by its bloom filter over the stringified
key_hash — returning the first record found, and it returns "not found"
exactly when no store holds the key.  Stated for well-formed states
(every summary offset resolvable, bloom filters covering their
summaries). -/
theorem c1_lookup_order (db : Database) (key : String) (hwf : dbWf db = true) :
    (∀ c, cacheGet db.cache (Hash32 key) = some c →
      (GetDataByKey db key).1 = some c) ∧
    (cacheGet db.cache (Hash32 key) = none →
      ∀ bs, db.commitlog.GetByKey key = some bs →
        (GetDataByKey db key).1 = some bs) ∧
    (cacheGet db.cache (Hash32 key) = none → db.commitlog.GetByKey key = none →
      (GetDataByKey db key).1 =
        searchDataHolders db.disk db.dhList.reverse (Hash32 key)
          (toString (Hash32 key))) ∧
    ((GetDataByKey db key).1 = none ↔ holdsKeyB db (Hash32 key) = false) := by
  simp only [dbWf, Bool.and_eq_true, List.all_eq_true] at hwf
  obtain ⟨⟨hcl, hread⟩, hbloom⟩ := hwf
  have hreadL : ∀ dh ∈ db.dhList.reverse, ∀ e ∈ dh.summary,
      (dh.Get db.disk e.Offset).isSome = true := by
    intro dh h
    exact hread dh (List.mem_reverse.mp h)
  have hbloomL : ∀ dh ∈ db.dhList.reverse, ∀ e ∈ dh.summary,
      dh.bloomfilter.Contains (toString e.Key) = true := by
    intro dh h
    exact hbloom dh (List.mem_reverse.mp h)
  refine ⟨?_, ?_, ?_, ?_⟩
  · intro c hc
    simp [GetDataByKey, hc]
  · intro hc bs hg
    simp [GetDataByKey, hc, hg]
  · intro hc hg
    simp [GetDataByKey, hc, hg]
  · cases hc : cacheGet db.cache (Hash32 key) with
    | some c =>
      simp [GetDataByKey, hc, holdsKeyB]
    | none =>
      cases hgl : db.commitlog.GetByKey key with
      | some bs =>
        have hsl : ¬summaryLookUp db.commitlog.summary (Hash32 key) = none := by
          intro hn
          have := (getByKey_none_iff db.commitlog key hcl).mpr hn
          rw [this] at hgl
          cases hgl
        simp [GetDataByKey, hc, hgl, holdsKeyB, Option.isSome_iff_ne_none, hsl]
      | none =>
        have hsln : summaryLookUp db.commitlog.summary (Hash32 key) = none :=
          (getByKey_none_iff db.commitlog key hcl).mp hgl
        have hsearch := searchDataHolders_none_iff db.disk (Hash32 key)
          db.dhList.reverse hreadL hbloomL
        simp only [GetDataByKey, hc, hgl]
        rw [hsearch]
        simp only [holdsKeyB, hc, hsln, Option.isSome_none, Bool.false_or,
          Bool.or_eq_false_iff, List.any_eq_false]
        constructor
        · intro hall dh hmem hs
          rw [hall dh (List.mem_reverse.mpr hmem)] at hs
          simp at hs
        · intro hall dh hmem
          exact Option.not_isSome_iff_eq_none.mp (hall dh (List.mem_reverse.mp hmem))

/-- Witness for C1, at the concrete database c9db and key x. -/
theorem c1_witness : dbWf c9db = true ∧
    ((GetDataByKey c9db kx).1 = none ↔ holdsKeyB c9db (Hash32 kx) = false) :=
  ⟨by decide, (c1_lookup_order c9db kx (by decide)).2.2.2⟩

/-- Claim C2: a compaction run collects as tombstones the union of all
index entries with status REMOVED across every DataFile and the current
commitlog; for each DataFile whose summary contains at least one
tombstoned key_hash it re-appends to the commitlog exactly those entries
whose key_hash is not in the tombstone set (never the tombstones
themselves) and deletes that DataFile's directory; DataFiles with no
tombstoned key_hash are left untouched.  Stated for well-formed states
with distinct directory names and all commitlog appends succeeding. -/
theorem c2_compaction (db : Database) (hwf : dbWf db = true)
    (hnd : pathsNodup db) :
    ∃ db1, doCompaction db (fun _ => true) = some db1 ∧
      db1.commitlog.frames.map Prod.snd = db.commitlog.frames.map Prod.snd ++
        (db.dhList.filter
            (fun dh => dhContainsAnyTombstone dh (tombstoneSetOf db))).flatMap
          (fun dh => survivorFrames db.disk (tombstoneSetOf db) dh) ∧
      (∀ dh ∈ db.dhList, dhContainsAnyTombstone dh (tombstoneSetOf db) = true →
        diskLookup db1.disk dh.path = none) ∧
      (∀ dh ∈ db.dhList, dhContainsAnyTombstone dh (tombstoneSetOf db) = false →
        diskLookup db1.disk dh.path = diskLookup db.disk dh.path) ∧
      (∀ t, t ∈ tombstoneSetOf db ↔
        ((∃ dh ∈ db.dhList, t.path = some dh.path ∧ t.entry ∈ dh.summary ∧
            t.entry.Status = .removed) ∨
         (t.path = none ∧ t.entry ∈ db.commitlog.summary ∧
            t.entry.Status = .removed))) := by
  simp only [dbWf, Bool.and_eq_true, List.all_eq_true] at hwf
  obtain ⟨⟨_, hread⟩, _⟩ := hwf
  obtain ⟨cl1, disk1, ctr1, heq, hmap, hpres⟩ :=
    compactLoop_true_spec (tombstoneSetOf db) db.dhList db.commitlog db.disk 0
      hread hnd
  refine ⟨{ db with commitlog := cl1, disk := disk1 }, ?_, ?_, ?_, ?_, ?_⟩
  · simp only [doCompaction]
    rw [heq]
  · exact hmap
  · intro dh hmem haff
    exact compactLoop_deletes (tombstoneSetOf db) _ db.dhList _ _ _ _ heq dh hmem haff
  · intro dh hmem haff
    exact hpres dh hmem haff
  · intro t
    exact tombstoneSet_mem db t

/-- Witness for C2, at the concrete database c9db. -/
theorem c2_witness :
    doCompaction c9db (fun _ => true) = some c10db ∧
    c10db.commitlog.frames.map Prod.snd =
      c9db.commitlog.frames.map Prod.snd ++
        (c9db.dhList.filter
            (fun dh => dhContainsAnyTombstone dh (tombstoneSetOf c9db))).flatMap
          (fun dh => survivorFrames c9db.disk (tombstoneSetOf c9db) dh) := by
  obtain ⟨db1, h1, h2, _⟩ :=
    c2_compaction c9db (by decide) (by unfold pathsNodup; decide)
  have hdb : c10db = db1 := by
    have h0 : c10db = (doCompaction c9db (fun _ => true)).getD c9db := rfl
    rw [h0, h1]
    rfl
  rw [hdb]
  exact ⟨h1, h2⟩

/-- Counterexample to claim C3: in the scenario of the claim (rollover
puts {f, ACTIVE} in DataFile 100, Insert {f, REMOVED}, one compaction
run) the DataFile directory is indeed deleted, but Get("f") afterwards
is not "not found" — the tombstone is still served from the cache and
the commitlog. -/
theorem c3_counterexample :
    doCompaction c3db2 (fun _ => true) = some c3db3 ∧
    diskLookup c3db3.disk 100 = none ∧
    ¬(GetDataByKey c3db3 kf).1 = none := by decide

/-- Claim C3 as amended: Get on a tombstoned key returns the REMOVED
record, and one compaction run deletes the DataFile that held the old
ACTIVE version, but the tombstone stays in the commitlog and cache, so
Get still returns the REMOVED record after the run instead of
"not found". -/
theorem c3_amended :
    (GetDataByKey c3db2 kf).1 = some recFR ∧ recFR.status = .removed ∧
    doCompaction c3db2 (fun _ => true) = some c3db3 ∧
    diskLookup c3db3.disk 100 = none ∧
    (GetDataByKey c3db3 kf).1 = some recFR := by decide

/-- Counterexample to claim C4: when the rename of the commitlog
directory fails after the data-file rename succeeded, the error does
surface, but the old commitlog is not in its pre-rotation state: its
data file has already been renamed to a data-kind file. -/
theorem c4_counterexample :
    (InsertData c4db c4rec c4fx).2 = .errRotate ∧
    c4db.disk.commitlogFileIsData = false ∧
    (InsertData c4db c4rec c4fx).1.disk.commitlogFileIsData = true := by decide

/-- Claim C4 as amended: failures of the renames, the open, the index
load, or the bloom-filter-file create surface to the caller of Insert,
the triggering write is not accepted and the in-memory commitlog and
DataFile list are unchanged (only the cache put stands); a failure
writing the bloom-filter contents is silently swallowed and the write
is accepted; the on-disk commitlog may be left mid-rotation rather than
in its pre-rotation state. -/
theorem c4_amended (db : Database) (df : DataDefinition) (fx : InsertOutcome)
    (hsz : fx.sizeOk = true)
    (hroll : db.commitlog.size + df.size > db.maxDataLogSize) :
    ((newDataHolder db.commitlog db.disk db.clock fx.rot).1 = none →
      (InsertData db df fx).2 = .errRotate ∧
      (InsertData db df fx).1.commitlog = db.commitlog ∧
      (InsertData db df fx).1.dhList = db.dhList ∧
      (InsertData db df fx).1.cache = cachePut db.cache (Hash32 df.key) df) ∧
    (fx.rot.renameFileOk = true → fx.rot.renameDirOk = true →
      fx.rot.openOk = true → fx.rot.loadIndexOk = true →
      fx.rot.createBloomOk = true → fx.addOk = true →
      (InsertData db df fx).2 = .ok) := by
  constructor
  · intro hfail
    cases hnd : newDataHolder db.commitlog db.disk db.clock fx.rot with
    | mk o d =>
      rw [hnd] at hfail
      simp only at hfail
      subst hfail
      simp [InsertData, hsz, hroll, hnd]
  · intro h1 h2 h3 h4 h5 h6
    simp [InsertData, hsz, hroll, newDataHolder, h1, h2, h3, h4, h5, h6]

/-- Witness for C4, at the concrete rotation whose directory rename
fails. -/
theorem c4_witness :
    (InsertData c4db c4rec c4fx).2 = .errRotate ∧
    (InsertData c4db c4rec c4fx).1.commitlog = c4db.commitlog ∧
    (InsertData c4db c4rec c4fx).1.dhList = c4db.dhList ∧
    (InsertData c4db c4rec c4fx).1.cache =
      cachePut c4db.cache (Hash32 c4rec.key) c4rec :=
  (c4_amended c4db c4rec c4fx (by decide) (by decide)).1 (by decide)

/-- Counterexample to claim C5: a record of size 2 inserted with
MaxDataLogSize 1 completes and leaves the commitlog at size 2, above
the bound, at rest. -/
theorem c5_counterexample :
    (InsertData c5db c5rec allInsOk).2 = .ok ∧
    c5db.maxDataLogSize = 1 ∧
    (InsertData c5db c5rec allInsOk).1.commitlog.size = 2 := by decide

/-- Claim C5 as amended: after every completed Insert of a record whose
size is at most MaxDataLogSize, the commitlog's on-disk size is at most
MaxDataLogSize. -/
theorem c5_amended (db : Database) (df : DataDefinition) (fx : InsertOutcome)
    (db1 : Database) (h : InsertData db df fx = (db1, .ok))
    (hdf : df.size ≤ db.maxDataLogSize) :
    db1.commitlog.size ≤ db.maxDataLogSize := by
  simp only [InsertData] at h
  cases hsz : fx.sizeOk with
  | false => simp [hsz] at h
  | true =>
    simp only [hsz, Bool.not_true, Bool.false_eq_true, if_false] at h
    by_cases hroll : db.commitlog.size + df.size > db.maxDataLogSize
    · rw [if_pos hroll] at h
      cases hnd : newDataHolder db.commitlog db.disk db.clock fx.rot with
      | mk o d =>
        rw [hnd] at h
        cases o with
        | none => simp at h
        | some ndh =>
          cases hadd : fx.addOk with
          | false => simp [hadd] at h
          | true =>
            simp only [hadd, Bool.not_true, Bool.false_eq_true, if_false,
              Prod.mk.injEq] at h
            obtain ⟨h1, _⟩ := h
            subst h1
            simpa [Commitlog.Add, NewCommitLog] using hdf
    · rw [if_neg hroll] at h
      cases hadd : fx.addOk with
      | false => simp [hadd] at h
      | true =>
        simp only [hadd, Bool.not_true, Bool.false_eq_true, if_false,
          Prod.mk.injEq] at h
        obtain ⟨h1, _⟩ := h
        subst h1
        simpa [Commitlog.Add] using Nat.le_of_not_lt hroll

/-- Witness for C5, at a concrete successful insert. -/
theorem c5_witness : c5wdb.commitlog.size ≤ c8db.maxDataLogSize :=
  c5_amended c8db c8rec allInsOk c5wdb (by decide) (by decide)

/-- Counterexample to claim C6: openDataHolder succeeds although the
read of the bloom-filter file's contents failed; the holder keeps the
zero-value (empty) filter, whose Contains returns false for a key that
is present in the summary — a false negative. -/
theorem c6_counterexample :
    openDataHolder c6disk 5 c6fx = some c6dh ∧
    summaryLookUp c6dh.summary (Hash32 kg) = some c6e ∧
    c6dh.bloomfilter.Contains (toString (Hash32 kg)) = false := by decide

/-- Claim C6 as amended: a DataFile newly sealed by rotation always has
a bloom filter containing the stringified key_hash of every summary
entry; a DataFile reloaded from disk has that property provided the
read of the bloom-filter file succeeds and the stored filter covers the
stored index (on a failed read the error is swallowed and the filter is
left empty). -/
theorem c6_amended :
    (∀ (sto : Commitlog) (disk0 : Disk) (p : Nat) (fx : RotateOutcome)
       (dh : dataHolder) (disk1 : Disk),
       newDataHolder sto disk0 p fx = (some dh, disk1) →
       ∀ e ∈ dh.summary, dh.bloomfilter.Contains (toString e.Key) = true) ∧
    (∀ (disk0 : Disk) (p : Nat) (fx : OpenOutcome) (dh : dataHolder)
       (files : DataDirFiles) (f : BloomFilter),
       openDataHolder disk0 p fx = some dh → fx.bloomReadOk = true →
       diskLookup disk0 p = some files → files.bloomFile = some f →
       (∀ e ∈ files.indexEntries, f.Contains (toString e.Key) = true) →
       ∀ e ∈ dh.summary, dh.bloomfilter.Contains (toString e.Key) = true) := by
  constructor
  · intro sto disk0 p fx dh disk1 h e he
    unfold newDataHolder at h
    split at h
    · simp at h
    · split at h
      · simp at h
      · split at h
        · simp at h
        · split at h
          · simp at h
          · split at h
            · simp at h
            · simp only [Prod.mk.injEq, Option.some.injEq] at h
              obtain ⟨h1, _⟩ := h
              subst h1
              exact buildBloom_contains _ _ he
  · intro disk0 p fx dh files f h hbr hlk hbf hcov e he
    simp only [openDataHolder, hlk, hbf, hbr] at h
    split at h
    · cases h
    · split at h
      · cases h
      · split at h
        · cases h
        · simp only [Option.some.injEq] at h
          subst h
          exact hcov e he

/-- Witness for C6, at a concrete successful rotation. -/
theorem c6_witness : c6rotdh.bloomfilter.Contains (toString (Hash32 kx)) = true :=
  c6_amended.1 c9cl ⟨false, true, []⟩ 9 allRotOk c6rotdh c6rot.2 (by decide)
    ⟨Hash32 kx, .removed, 0⟩ (by decide)

/-- Counterexample to claim C7: the newest DataFile's summary has key g
but its frame is unreadable; the older DataFile holds a readable record
for g, yet the lookup returns "not found" instead of continuing with
the older file. -/
theorem c7_counterexample :
    (GetDataByKey c7db kg).1 = none ∧
    c7old.Get c7db.disk 0 = some c7rec ∧
    summaryLookUp c7old.summary (Hash32 kg) = some c7eg := by decide

/-- Claim C7 as amended: a corrupted frame read during the DataFile scan
makes the entire remaining lookup return "not found" — the nil read
result is fed to the deserializer, whose panic the deferred recover
swallows — and no older DataFile is consulted; the engine does not
crash. -/
theorem c7_amended (disk0 : Disk) (dh : dataHolder) (rest : List dataHolder)
    (hkey : Nat) (strKey : String) (e : Entry)
    (hbl : dh.bloomfilter.Contains strKey = true)
    (hsl : summaryLookUp dh.summary hkey = some e)
    (hcorrupt : dh.Get disk0 e.Offset = none) :
    searchDataHolders disk0 (dh :: rest) hkey strKey = none := by
  simp [searchDataHolders, hbl, hsl, hcorrupt]

/-- Witness for C7, at the concrete corrupted database. -/
theorem c7_witness :
    searchDataHolders c7disk [c7new, c7old] (Hash32 kg) (toString (Hash32 kg)) = none :=
  c7_amended c7disk c7new [c7old] (Hash32 kg) (toString (Hash32 kg)) c7eg
    (by decide) (by decide) (by decide)

/-- Counterexample to claim C8: the commitlog append fails, the error
surfaces, the commitlog holds nothing — yet the record is immediately
queryable, served from the cache. -/
theorem c8_counterexample :
    (InsertData c8db c8rec c8fx).2 = .errAdd ∧
    (InsertData c8db c8rec c8fx).1.commitlog.frames = [] ∧
    (GetDataByKey (InsertData c8db c8rec c8fx).1 ka).1 = some c8rec := by decide

/-- Claim C8 as amended: when the append step fails (no rollover
triggered), the error surfaces with no state mutation beyond the cache
put — but the record is still queryable afterwards, from the cache,
even though the commitlog append failed. -/
theorem c8_amended (db : Database) (df : DataDefinition) (fx : InsertOutcome)
    (db1 : Database) (h : InsertData db df fx = (db1, .errAdd))
    (hnoroll : ¬db.commitlog.size + df.size > db.maxDataLogSize) :
    db1 = { db with cache := cachePut db.cache (Hash32 df.key) df } ∧
    db1.commitlog = db.commitlog ∧ db1.dhList = db.dhList ∧
    db1.disk = db.disk ∧
    (GetDataByKey db1 df.key).1 = some df := by
  simp only [InsertData] at h
  cases hsz : fx.sizeOk with
  | false => simp [hsz] at h
  | true =>
    simp only [hsz, Bool.not_true, Bool.false_eq_true, if_false] at h
    rw [if_neg hnoroll] at h
    cases hadd : fx.addOk with
    | true => simp [hadd] at h
    | false =>
      simp only [hadd, Bool.not_false, if_true, Prod.mk.injEq] at h
      obtain ⟨h1, _⟩ := h
      subst h1
      refine ⟨rfl, rfl, rfl, rfl, ?_⟩
      simp [GetDataByKey, cacheGet_put_self]

/-- Witness for C8, at the concrete failing append. -/
theorem c8_witness :
    c8wdb = { c8db with cache := cachePut c8db.cache (Hash32 c8rec.key) c8rec } ∧
    c8wdb.commitlog = c8db.commitlog ∧ c8wdb.dhList = c8db.dhList ∧
    c8wdb.disk = c8db.disk ∧ (GetDataByKey c8wdb c8rec.key).1 = some c8rec :=
  c8_amended c8db c8rec c8fx c8wdb (by decide) (by decide)

/-- Counterexample to claim C9: with every commitlog append failing, the
compaction run still completes, the tombstone-affected DataFile 7 is
deleted, and the commitlog is unchanged — the live entry for key y was
not rewritten, yet its DataFile was deleted. -/
theorem c9_counterexample :
    doCompaction c9db (fun _ => false) = some c9dbBad ∧
    diskLookup c9dbBad.disk 7 = none ∧
    c9dbBad.commitlog = c9db.commitlog ∧
    summaryLookUp c9dh.summary (Hash32 ky) = some c9ey ∧
    containsKey (Hash32 ky) (tombstoneSetOf c9db) = false := by decide

/-- Claim C9 as amended: doCompaction discards append errors; whatever
the append outcomes, the run completes (as long as every survivor frame
is readable) and every tombstone-affected DataFile directory is
deleted, drained or not. -/
theorem c9_amended (db : Database) (addOk : Nat → Bool)
    (hread : ∀ dh ∈ db.dhList, ∀ e ∈ dh.summary,
      (dh.Get db.disk e.Offset).isSome = true)
    (hnd : pathsNodup db) :
    ∃ db1, doCompaction db addOk = some db1 ∧
      ∀ dh ∈ db.dhList, dhContainsAnyTombstone dh (tombstoneSetOf db) = true →
        diskLookup db1.disk dh.path = none := by
  obtain ⟨r, hr⟩ := Option.isSome_iff_exists.mp
    (compactLoop_isSome (tombstoneSetOf db) addOk db.dhList db.commitlog db.disk 0
      hread hnd)
  obtain ⟨cl1, disk1, ctr1⟩ := r
  refine ⟨{ db with commitlog := cl1, disk := disk1 }, ?_, ?_⟩
  · simp only [doCompaction]
    rw [hr]
  · intro dh hmem haff
    exact compactLoop_deletes (tombstoneSetOf db) addOk db.dhList _ _ _ _ hr dh hmem haff

/-- Witness for C9, at the concrete run with all appends failing. -/
theorem c9_witness : diskLookup c9dbBad.disk 7 = none := by
  obtain ⟨db1, h1, h2⟩ :=
    c9_amended c9db (fun _ => false) (by decide) (by unfold pathsNodup; decide)
  have hdb : c9dbBad = db1 := by
    have h0 : c9dbBad = (doCompaction c9db (fun _ => false)).getD c9db := rfl
    rw [h0, h1]
    rfl
  rw [hdb]
  exact h2 c9dh (by decide) (by decide)

/-- Claim C10: a compaction run never removes entries from the
in-memory dataHolder list (nor the cache); it deletes DataFile
directories on disk, so a Get issued afterwards still consults the
summary and bloom filter of each deleted DataFile, and every read
through such a holder resolves through the corrupted-read path
(returning the nil byte stream). -/
theorem c10_frame (db : Database) (addOk : Nat → Bool) (db1 : Database)
    (h : doCompaction db addOk = some db1) :
    db1.dhList = db.dhList ∧ db1.cache = db.cache ∧
    (∀ dh ∈ db.dhList, dhContainsAnyTombstone dh (tombstoneSetOf db) = true →
      ∀ pos, dh.Get db1.disk pos = none) := by
  simp only [doCompaction] at h
  cases hcl : compactLoop db.dhList (tombstoneSetOf db) db.commitlog db.disk 0 addOk with
  | none => rw [hcl] at h; cases h
  | some r =>
    obtain ⟨cl1, disk1, ctr1⟩ := r
    rw [hcl] at h
    injection h with h
    subst h
    refine ⟨rfl, rfl, ?_⟩
    intro dh hmem haff pos
    exact dataHolder_Get_of_dir_none dh _
      (compactLoop_deletes (tombstoneSetOf db) addOk db.dhList _ _ _ _ hcl dh hmem haff) pos

/-- Witness for C10, at the concrete compaction run on c9db. -/
theorem c10_witness :
    c10db.dhList = c9db.dhList ∧ c10db.cache = c9db.cache ∧
    c9dh.Get c10db.disk 1 = none := by
  have h := c10_frame c9db (fun _ => true) c10db (by decide)
  exact ⟨h.1, h.2.1, h.2.2 c9dh (by decide) (by decide) 1⟩

end SparrowDB
